import Mathlib

/-!
Verification of the text-preprocessing, recommender-dataset, attention,
transposed-convolution, hybridization and packaging claims of the
learn-pytorch tutorial repository.

The Python sources are embedded shallowly: strings are Lean `String`s,
token corpora are `List (List String)`, numeric tensor entries are `ℚ`
(the framework's transcendental primitives `exp`, `tanh` and `sqrt` are
abstracted as function parameters), and Python's stable `list.sort` is
modelled by `List.insertionSort`, which is a stable sort for the same
comparator, hence extensionally the same function.
-/

set_option maxRecDepth 4000

open scoped List

/-! ## Character-level string utilities

Python's `str.split(sep)` with a one-character separator keeps empty
pieces and returns `['']` on the empty string; `String.splitOn` has the
same semantics, but we re-implement it by structural recursion on the
character list so that all proofs can be evaluated by `decide`. -/

/-- Python `s.split(sep)` for a single-character separator `sep`:
splits at every occurrence, keeping empty pieces (`''.split(sep) = ['']`). -/
def splitOnChar (sep : Char) : List Char → List (List Char)
  | [] => [[]]
  | c :: cs =>
    if c = sep then
      [] :: splitOnChar sep cs
    else
      match splitOnChar sep cs with
      | [] => [[c]]
      | f :: rest => (c :: f) :: rest

/-- Python code-point comparison of strings: `strLt a b` is `a < b`
in the lexicographic order on Unicode code points, the order Python
uses to compare `str` values. -/
def strLt : List Char → List Char → Bool
  | [], [] => false
  | [], _ :: _ => true
  | _ :: _, [] => false
  | c :: cs, d :: ds =>
    if c < d then true
    else if d < c then false
    else strLt cs ds

/-! ## Text preprocessing (`tokenize`, from the text-preprocessing notebook)

```python
def tokenize(lines, token='word'):
    if token == 'word':
        return [line.split(' ') for line in lines]
    elif token == 'char':
        return [list(line) for line in lines]
    else:
        print('ERROR: unkown token type '+token)
```
The returned value and the printed output are modelled as a pair; the
implicit `return None` of the error branch is the first component `none`,
and the `print` of the error branch is the second component. -/

def tokenize (lines : List String) (token : String) :
    Option (List (List String)) × List String :=
  if token = "word" then
    (some (lines.map fun line => (splitOnChar ' ' line.data).map String.mk), [])
  else if token = "char" then
    (some (lines.map fun line => line.data.map fun c => String.mk [c]), [])
  else
    (none, ["ERROR: unkown token type " ++ token])

/-! ## The dependency manifest (`01.PyTorch-tutorials/requirements.txt`)

The manifest is data, not code; it is embedded verbatim, one list
element per line. -/

def requirements_txt : List String :=
  [ "# Refer to ./jenkins/build.sh for tutorial build instructions"
  , ""
  , "sphinx"
  , "sphinx-gallery==0.3.1"
  , "tqdm"
  , "numpy"
  , "matplotlib"
  , "torch"
  , "torchvision"
  , "torchtext"
  , "torchaudio"
  , "PyHamcrest"
  , "bs4"
  , "awscli==1.16.35"
  , "flask"
  , "spacy"
  , ""
  , "# PyTorch Theme"
  , "-e git+git://github.com/pytorch/pytorch_sphinx_theme.git#egg=pytorch_sphinx_theme"
  , ""
  , "ipython"
  , ""
  , "# to run examples"
  , "pandas"
  , "scikit-image"
  , "# pillow >= 4.2 will throw error when trying to write mode RGBA as JPEG,"
  , "# this is a workaround to the issue."
  , "pillow==6.2.0"
  , "wget"
  ]

/-- A package requirement entry of the manifest: a line that is neither
empty nor a `#` comment (after stripping leading blanks), following the
spec's phrase "each non-comment, non-empty line". -/
def isRequirementEntry (l : String) : Bool :=
  let cs := l.data.dropWhile fun c => c = ' '
  !cs.isEmpty && !(cs.headD ' ' = '#')

/-- The requirement entries of the manifest. -/
def requirementEntries : List String :=
  requirements_txt.filter isRequirementEntry

/-- Whether a character list contains the pip exact-version marker `==`. -/
def hasEqEq : List Char → Bool
  | '=' :: '=' :: _ => true
  | _ :: cs => hasEqEq cs
  | [] => false

/-- An entry "specifies an exact version" (spec wording: lists the
package with a pinned version) iff it carries a pip `==` version pin. -/
def pinsExactVersion (l : String) : Bool :=
  hasEqEq l.data

/-! ## Vocabulary (`Vocab`, `count_corpus`, from the text-preprocessing notebook)

```python
class Vocab(object):
    def __init__(self, tokens, min_freq=0, use_special_tokens=False):
        counter = count_corpus(tokens)
        self.token_freqs = sorted(counter.items(), key=lambda x: x[0])
        self.token_freqs.sort(key=lambda x: x[1], reverse=True)
        if use_special_tokens:
            self.pad, self.bos, self.eos, self.unk = (0, 1, 2, 3)
            uniq_tokens = ['<pad>', '<bos>', '<eos>', '<unk>']
        else:
            self.unk, uniq_tokens = 0, ['<unk>']
        uniq_tokens += [token for token, freq in self.token_freqs
                        if freq >= min_freq and token not in uniq_tokens]
        self.idx_to_token, self.token_to_idx = [], dict()
        for token in uniq_tokens:
            self.idx_to_token.append(token)
            self.token_to_idx[token] = len(self.idx_to_token) - 1
```

Notes on the embedding:
* `Counter(tokens).items()` is the list of distinct tokens paired with
  their multiplicities; its iteration order is irrelevant because the
  next line sorts it by token, so it is modelled with `List.dedup`.
* Python's `sorted`/`list.sort` are stable; both sorts are modelled with
  the stable `List.insertionSort`, with comparator `a ≤ b ↔ ¬ b < a`.
* The list comprehension's membership test `token not in uniq_tokens`
  reads the initial `uniq_tokens` (the special tokens): the whole
  comprehension is evaluated before `+=` extends the list.
* The `for` loop building `idx_to_token`/`token_to_idx` is `toIdxAux 0`. -/

/-- Python `count_corpus`: `[tk for line in sentences for tk in line]`
(the flattened corpus; its `Counter` is taken by `counterItems`). -/
def count_corpus (sentences : List (List String)) : List String :=
  sentences.flatten

/-- The item list of `collections.Counter(tokens)`: each distinct token
paired with its multiplicity in `tokens`. -/
def counterItems (tokens : List String) : List (String × ℕ) :=
  tokens.dedup.map fun t => (t, tokens.count t)

/-- The comparator of `sorted(counter.items(), key=lambda x: x[0])`:
ascending by token in Python's code-point order (`a ≤ b ↔ ¬ b < a`). -/
def byToken (p q : String × ℕ) : Prop :=
  strLt q.1.data p.1.data = false

instance : DecidableRel byToken := fun p q => by unfold byToken; infer_instance

/-- The comparator of `token_freqs.sort(key=lambda x: x[1], reverse=True)`:
descending by frequency (`a ≤ b ↔ ¬ b < a`, reversed). -/
def byFreqDesc (p q : String × ℕ) : Prop :=
  q.2 ≤ p.2

instance : DecidableRel byFreqDesc := fun p q => by unfold byFreqDesc; infer_instance

/-- The loop `for token in uniq_tokens: idx_to_token.append(token);
token_to_idx[token] = len(idx_to_token) - 1`, started at offset `off`. -/
def toIdxAux (off : ℕ) : List String → List (String × ℕ)
  | [] => []
  | t :: ts => (t, off) :: toIdxAux (off + 1) ts

structure Vocab where
  token_freqs : List (String × ℕ)
  idx_to_token : List String
  token_to_idx : List (String × ℕ)
  unk : ℕ

/-- The initial `uniq_tokens` list and the `unk` index of `Vocab.__init__`. -/
def specialsOf (use_special_tokens : Bool) : List String :=
  if use_special_tokens then ["<pad>", "<bos>", "<eos>", "<unk>"] else ["<unk>"]

/-- The two sorting lines of `Vocab.__init__`: sort the counter items
by token, then stably re-sort by descending frequency. -/
def vocabTokenFreqs (tokens : List (List String)) : List (String × ℕ) :=
  ((counterItems (count_corpus tokens)).insertionSort byToken).insertionSort byFreqDesc

/-- The final `uniq_tokens` list of `Vocab.__init__`: the special tokens
followed by the sorted tokens of frequency at least `min_freq` that are
not special tokens. -/
def vocabUniq (tokens : List (List String)) (min_freq : ℕ)
    (use_special_tokens : Bool) : List String :=
  specialsOf use_special_tokens ++
    ((vocabTokenFreqs tokens).filter fun p =>
      decide (min_freq ≤ p.2) && !((specialsOf use_special_tokens).contains p.1)).map Prod.fst

/-- `Vocab.__init__`. -/
def Vocab.ofTokens (tokens : List (List String)) (min_freq : ℕ)
    (use_special_tokens : Bool) : Vocab :=
  ⟨vocabTokenFreqs tokens,
    vocabUniq tokens min_freq use_special_tokens,
    toIdxAux 0 (vocabUniq tokens min_freq use_special_tokens),
    if use_special_tokens then 3 else 0⟩

/-- `Vocab.__len__`. -/
def Vocab.len (v : Vocab) : ℕ :=
  v.idx_to_token.length

/-- `Vocab.__getitem__` on a single token:
`self.token_to_idx.get(tokens, self.unk)`. -/
def Vocab.getIdx (v : Vocab) (t : String) : ℕ :=
  (v.token_to_idx.lookup t).getD v.unk

/-- `Vocab.to_tokens` on a single in-range index:
`self.idx_to_token[indices]` (out-of-range reads, which raise in Python,
return `default`). -/
def Vocab.to_tokens (v : Vocab) (i : ℕ) : String :=
  v.idx_to_token.getD i default

/-! ## The CTR dataset wrapper (`CTRDataset`, from the recommender notebook)

```python
class CTRDataset(gluon.data.Dataset):
    def __init__(self, data_path, feat_mapper=None, defaults=None,
                 min_threshold=4, num_feat=34):
        self.NUM_FEATS, self.count, self.data = num_feat, 0, {}
        ...
        with open(data_path) as f:
            for line in f:
                instance = {}
                values = line.rstrip('\n').split('\t')
                if len(values) != self.NUM_FEATS + 1:
                    continue
                ...
                instance['y'] = [np.float32(values[0])]
                for i in range(1, self.NUM_FEATS + 1):
                    feat_cnts[i][values[i]] += 1
                    instance.setdefault('x',[]).append(values[i])
                self.data[self.count] = instance
                self.count = self.count + 1
        ...
    def __len__(self):
        return self.count
    def __getitem__(self, idx):
        feat = np.array([...])
        return feat + self.offsets, self.data[idx]['y']
```

The file is modelled as its list of lines (without the terminating
newline each `line` of `for line in f` carries, which `rstrip('\n')`
removes anyway); `self.data` is modelled as the association list of
`(record number, instance)` pairs in insertion order.  Only the label
component `self.data[idx]['y']` of `__getitem__` is modelled (the
feature component involves `feat_mapper`, which no claim touches). -/

/-- Python `s.rstrip('\n')`: drop every trailing newline character. -/
def rstripNl (s : String) : String :=
  String.mk ((s.data.reverse.dropWhile fun c => c = '\n').reverse)

/-- `line.rstrip('\n').split('\t')`. -/
def lineValues (line : String) : List String :=
  (splitOnChar '\t' (rstripNl line).data).map String.mk

structure CTRInstance where
  y : ℚ
  x : List String
deriving DecidableEq

/-- Modelled from the spec: the numeric parse `np.float32(values[0])` of
the label column is owned by the external framework; the CTR dataset's
first column holds the integer strings `"0"`/`"1"`, on which float
parsing agrees with decimal-digit integer parsing. -/
def parseDigits (s : String) : ℕ :=
  s.data.foldl (fun n c => n * 10 + (c.toNat - 48)) 0

/-- One stored `instance`: `y` from column `0`, `x` from columns
`1 .. NUM_FEATS` in loop order. -/
def mkCTRInstance (num_feat : ℕ) (values : List String) : CTRInstance :=
  ⟨(parseDigits (values.getD 0 default) : ℚ),
    (List.range num_feat).map fun i => values.getD (i + 1) default⟩

/-- One iteration of the loading loop of `CTRDataset.__init__`: skip
the line when the guard fires (`continue`), else store the instance at
key `self.count` and increment the counter. -/
def ctrStep (num_feat : ℕ) (st : ℕ × List (ℕ × CTRInstance)) (line : String) :
    ℕ × List (ℕ × CTRInstance) :=
  let values := lineValues line
  if values.length ≠ num_feat + 1 then st
  else (st.1 + 1, st.2 ++ [(st.1, mkCTRInstance num_feat values)])

/-- The loading loop of `CTRDataset.__init__`: the final
`(self.count, self.data)` after folding over the file's lines. -/
def ctrLoad (num_feat : ℕ) (fileLines : List String) : ℕ × List (ℕ × CTRInstance) :=
  fileLines.foldl (ctrStep num_feat) (0, [])

/-- `CTRDataset.__len__`. -/
def CTRDataset.len (num_feat : ℕ) (fileLines : List String) : ℕ :=
  (ctrLoad num_feat fileLines).1

/-- The label component `self.data[idx]['y']` of `CTRDataset.__getitem__`. -/
def CTRDataset.label (num_feat : ℕ) (fileLines : List String) (idx : ℕ) : Option ℚ :=
  ((ctrLoad num_feat fileLines).2.lookup idx).map CTRInstance.y

/-- The guard of the loading loop: a line is well formed iff splitting
it on tab yields exactly `NUM_FEATS + 1` values. -/
def ctrWellFormed (num_feat : ℕ) (line : String) : Bool :=
  (lineValues line).length == num_feat + 1

/-- Consecutive numbering from `n` (the insertion-order keys of a
Python dict indexed by a running counter). -/
def numberFrom {α : Type} (n : ℕ) : List α → List (ℕ × α)
  | [] => []
  | x :: xs => (n, x) :: numberFrom (n + 1) xs

/-- Modelled from the spec: the click-through rate, "the ratio of clicks
to impressions" (`CTR = #Clicks / #Impressions × 100 %`; expressed as a
fraction rather than a percentage, the `× 100 %` factor is `1`). -/
def clickThroughRate (clicks impressions : ℚ) : ℚ :=
  clicks / impressions

/-! ## Attention layers (`masked_softmax`, `DotProductAttention`,
`MLPAttention`, from the attention notebook)

A `(b, n, m)` tensor is a curried function `Fin b → Fin n → Fin m → ℚ`.
The framework's real-valued primitives are abstracted as parameters:
`e` for the `exp` inside `npx.softmax`, `th` for the `tanh` activation
of `nn.Dense`, `sqrtd` for `math.sqrt(d)`.  `nn.Dropout` in its inactive
(evaluation) state is an arbitrary function constrained to be the
identity by hypothesis. -/

/-- `npx.batch_dot`: `Z[i,:,:] = X[i,:,:] Y[i,:,:]`. -/
def batch_dot {b n m k : ℕ} (X : Fin b → Fin n → Fin m → ℚ)
    (Y : Fin b → Fin m → Fin k → ℚ) : Fin b → Fin n → Fin k → ℚ :=
  fun i r c => ∑ j, X i r j * Y i j c

/-- The `transpose_b=True` option of `npx.batch_dot`: swap the last two axes. -/
def transposeB {b n m : ℕ} (Y : Fin b → Fin n → Fin m → ℚ) :
    Fin b → Fin m → Fin n → ℚ :=
  fun i r c => Y i c r

/-- One row of `npx.softmax` along the last axis, the framework's `exp`
abstracted as `e`. -/
def softmaxRow (e : ℚ → ℚ) {m : ℕ} (v : Fin m → ℚ) : Fin m → ℚ :=
  fun j => e (v j) / ∑ j2, e (v j2)

/-- The fill value `-1e6` of the masking step. -/
def negMillion : ℚ := -1000000

/-- `npx.sequence_mask(·, vlen, True, axis=1, value=-1e6)` on one row:
entries at positions `≥ vlen` are replaced by `-1e6`. -/
def sequence_mask {m : ℕ} (vlen : ℕ) (row : Fin m → ℚ) : Fin m → ℚ :=
  fun j => if (j : ℕ) < vlen then row j else negMillion

/-- The `valid_length` argument of `masked_softmax`: `None`, a 1-D
tensor (one length per batch, repeated over the `n` rows by
`valid_length.repeat(shape[1], axis=0)`), or a 2-D tensor (one length
per batch and row, flattened row-major by `reshape(-1)`). -/
inductive ValidLength (b n : ℕ) where
  | vlNone : ValidLength b n
  | oneD (v : Fin b → ℕ) : ValidLength b n
  | twoD (v : Fin b → Fin n → ℕ) : ValidLength b n

/-- `masked_softmax(X, valid_length)`: softmax along the last axis,
after masking positions beyond the valid length with `-1e6`. -/
def masked_softmax (e : ℚ → ℚ) {b n m : ℕ} (X : Fin b → Fin n → Fin m → ℚ) :
    ValidLength b n → Fin b → Fin n → Fin m → ℚ
  | .vlNone => fun i r => softmaxRow e (X i r)
  | .oneD v => fun i r => softmaxRow e (sequence_mask (v i) (X i r))
  | .twoD v => fun i r => softmaxRow e (sequence_mask (v i r) (X i r))

/-- The score tensor of `DotProductAttention.forward`:
`npx.batch_dot(query, key, transpose_b=True) / math.sqrt(d)`. -/
def dotScores (sqrtd : ℚ) {b n m d : ℕ} (query : Fin b → Fin n → Fin d → ℚ)
    (key : Fin b → Fin m → Fin d → ℚ) : Fin b → Fin n → Fin m → ℚ :=
  fun i r c => batch_dot query (transposeB key) i r c / sqrtd

/-- `DotProductAttention.forward`. -/
def DotProductAttention.forward (e : ℚ → ℚ) (sqrtd : ℚ) {b n m d vd : ℕ}
    (dropout : (Fin b → Fin n → Fin m → ℚ) → Fin b → Fin n → Fin m → ℚ)
    (query : Fin b → Fin n → Fin d → ℚ) (key : Fin b → Fin m → Fin d → ℚ)
    (value : Fin b → Fin m → Fin vd → ℚ) (valid_length : ValidLength b n) :
    Fin b → Fin n → Fin vd → ℚ :=
  batch_dot (dropout (masked_softmax e (dotScores sqrtd query key) valid_length)) value

/-- `nn.Dense(units, use_bias=False, flatten=False)` with activation
`act`, applied to the last axis of its input. -/
def dense (act : ℚ → ℚ) {u dIn : ℕ} (W : Fin u → Fin dIn → ℚ)
    (x : Fin dIn → ℚ) : Fin u → ℚ :=
  fun o => act (∑ j, W o j * x j)

/-- The score tensor of `MLPAttention.forward`: the source applies
`self.W_k` to `query` and `self.W_q` to `key`, adds the projections with
broadcasting, feeds them through the 1-unit dense layer `self.v` and
squeezes the last axis. -/
def mlpScores (th : ℚ → ℚ) {b n m dq dk hu : ℕ} (Wk : Fin hu → Fin dq → ℚ)
    (Wq : Fin hu → Fin dk → ℚ) (vW : Fin hu → ℚ)
    (query : Fin b → Fin n → Fin dq → ℚ) (key : Fin b → Fin m → Fin dk → ℚ) :
    Fin b → Fin n → Fin m → ℚ :=
  let query2 := fun i r => dense th Wk (query i r)
  let key2 := fun i c => dense th Wq (key i c)
  fun i r c => ∑ u2, vW u2 * (query2 i r u2 + key2 i c u2)

/-- `MLPAttention.forward`. -/
def MLPAttention.forward (e th : ℚ → ℚ) {b n m dq dk hu vd : ℕ}
    (Wk : Fin hu → Fin dq → ℚ) (Wq : Fin hu → Fin dk → ℚ) (vW : Fin hu → ℚ)
    (dropout : (Fin b → Fin n → Fin m → ℚ) → Fin b → Fin n → Fin m → ℚ)
    (query : Fin b → Fin n → Fin dq → ℚ) (key : Fin b → Fin m → Fin dk → ℚ)
    (value : Fin b → Fin m → Fin vd → ℚ) (valid_length : ValidLength b n) :
    Fin b → Fin n → Fin vd → ℚ :=
  batch_dot (dropout (masked_softmax e (mlpScores th Wk Wq vW query key) valid_length)) value

/-! ## Transposed convolution (`trans_conv`, `kernel2matrix`, `corr2d`,
from the transposed-convolution notebook)

```python
def trans_conv(X, K):
    h, w = K.shape
    Y = np.zeros((X.shape[0] + h - 1, X.shape[1] + w - 1))
    for i in range(X.shape[0]):
        for j in range(X.shape[1]):
            Y[i: i + h, j: j + w] += X[i, j] * K
    return Y

def kernel2matrix(K):
    k, W = np.zeros(5), np.zeros((4, 9))
    k[:2], k[3:5] = K[0, :], K[1, :]
    W[0, :5], W[1, 1:6], W[2, 3:8], W[3, 4:] = k, k, k, k
    return W
```

`trans_conv`'s loop only accumulates with `+=` into an all-zeros `Y`, so
entry `(p, q)` of the result is the sum over all loop iterations
`(i, j)` whose patch covers `(p, q)`; `corr2d` is the convolution the
notebook quotes as `Y[i, j] = (X[i: i + h, j: j + w] * K).sum()`. -/

/-- `trans_conv(X, K)`: the accumulation loop, written as the sum of the
contributions of all iterations to each output entry. -/
def trans_conv {n m h w : ℕ} (X : Fin n → Fin m → ℚ) (K : Fin h → Fin w → ℚ) :
    Fin (n + h - 1) → Fin (m + w - 1) → ℚ :=
  fun p q => ∑ i : Fin n, ∑ j : Fin m,
    if hin : (i : ℕ) ≤ (p : ℕ) ∧ (p : ℕ) < (i : ℕ) + h ∧
        (j : ℕ) ≤ (q : ℕ) ∧ (q : ℕ) < (j : ℕ) + w then
      X i j * K ⟨(p : ℕ) - (i : ℕ), by omega⟩ ⟨(q : ℕ) - (j : ℕ), by omega⟩
    else 0

/-- `d2l.corr2d(X, K)`, as quoted in the notebook:
`Y[i, j] = (X[i: i + h, j: j + w] * K).sum()`. -/
def corr2d {n m h w : ℕ} (X : Fin n → Fin m → ℚ) (K : Fin h → Fin w → ℚ) :
    Fin (n + 1 - h) → Fin (m + 1 - w) → ℚ :=
  fun i j => ∑ a : Fin h, ∑ c : Fin w,
    X ⟨(i : ℕ) + (a : ℕ), by have := i.isLt; have := a.isLt; omega⟩
      ⟨(j : ℕ) + (c : ℕ), by have := j.isLt; have := c.isLt; omega⟩ * K a c

/-- The length-5 strip `k` of `kernel2matrix`:
`k[:2], k[3:5] = K[0, :], K[1, :]` over `np.zeros(5)`. -/
def kvec (K : Fin 2 → Fin 2 → ℚ) : Fin 5 → ℚ := fun i =>
  if (i : ℕ) = 0 then K 0 0
  else if (i : ℕ) = 1 then K 0 1
  else if (i : ℕ) = 3 then K 1 0
  else if (i : ℕ) = 4 then K 1 1
  else 0

/-- The column offset at which row `r` of `W` holds the strip `k`:
`W[0, :5], W[1, 1:6], W[2, 3:8], W[3, 4:] = k, k, k, k`. -/
def rowOffset (r : Fin 4) : ℕ :=
  if (r : ℕ) = 0 then 0 else if (r : ℕ) = 1 then 1 else if (r : ℕ) = 2 then 3 else 4

/-- `kernel2matrix(K)`. -/
def kernel2matrix (K : Fin 2 → Fin 2 → ℚ) : Fin 4 → Fin 9 → ℚ := fun r c =>
  if hc : rowOffset r ≤ (c : ℕ) ∧ (c : ℕ) < rowOffset r + 5 then
    kvec K ⟨(c : ℕ) - rowOffset r, by omega⟩
  else 0

/-- `X.reshape(-1)` of a `2×2` matrix (row-major). -/
def reshape2to4 (X : Fin 2 → Fin 2 → ℚ) : Fin 4 → ℚ :=
  fun i => X ⟨(i : ℕ) / 2, by have := i.isLt; omega⟩ ⟨(i : ℕ) % 2, by omega⟩

/-- `X.reshape(-1)` of a `3×3` matrix (row-major). -/
def reshape3to9 (X : Fin 3 → Fin 3 → ℚ) : Fin 9 → ℚ :=
  fun i => X ⟨(i : ℕ) / 3, by have := i.isLt; omega⟩ ⟨(i : ℕ) % 3, by omega⟩

/-- `v.reshape(2, 2)` of a length-4 vector (row-major). -/
def reshape4to2 (v : Fin 4 → ℚ) : Fin 2 → Fin 2 → ℚ :=
  fun r c => v ⟨2 * (r : ℕ) + (c : ℕ), by have := r.isLt; have := c.isLt; omega⟩

/-- `v.reshape(3, 3)` of a length-9 vector (row-major). -/
def reshape9to3 (v : Fin 9 → ℚ) : Fin 3 → Fin 3 → ℚ :=
  fun r c => v ⟨3 * (r : ℕ) + (c : ℕ), by have := r.isLt; have := c.isLt; omega⟩

/-- `np.dot(W, x)` for a matrix and a vector. -/
def matVec {r c : ℕ} (W : Fin r → Fin c → ℚ) (x : Fin c → ℚ) : Fin r → ℚ :=
  fun i => ∑ j, W i j * x j

/-- `W.T`. -/
def transposeM {r c : ℕ} (W : Fin r → Fin c → ℚ) : Fin c → Fin r → ℚ :=
  fun i j => W j i

/-! ## Hybridization (`add`, `fancy_func`, `add_`, `fancy_func_`,
`evoke_`, from the hybridize notebook)

```python
def add(a, b):
    return a + b

def fancy_func(a, b, c, d):
    e = add(a, b)
    f = add(c, d)
    g = add(e, f)
    return g

def add_():
    return '''
def add(a, b):
    return a + b
'''

def fancy_func_():
    return '''
def fancy_func(a, b, c, d):
    e = add(a, b)
    f = add(c, d)
    g = add(e, f)
    return g
'''

def evoke_():
    return add_() + fancy_func_() + 'print(fancy_func(1, 2, 3, 4))'

prog = evoke_()
y = compile(prog, '', 'exec')
exec(y)
```

The imperative side is embedded directly.  `compile`/`exec` belong to
the Python runtime; the symbolic program is modelled by an abstract
syntax tree for exactly the Python fragment the generated text uses
(integer literals, variables, `+`, calls, assignments, `return`,
`print`), with a fuel-indexed evaluator, and the link with the source's
program *text* is established by proving that pretty-printing the tree
yields the very string `evoke_` builds. -/

/-- Python `add`. -/
def add (a b : ℤ) : ℤ := a + b

/-- Python `fancy_func`. -/
def fancy_func (a b c d : ℤ) : ℤ :=
  let e := add a b
  let f := add c d
  let g := add e f
  g

/-- The string returned by `add_()`. -/
def add_ : String :=
  "\ndef add(a, b):\n    return a + b\n"

/-- The string returned by `fancy_func_()`. -/
def fancy_func_ : String :=
  "\ndef fancy_func(a, b, c, d):\n    e = add(a, b)\n    f = add(c, d)\n    g = add(e, f)\n    return g\n"

/-- The program text returned by `evoke_()`. -/
def evoke_ : String :=
  add_ ++ fancy_func_ ++ "print(fancy_func(1, 2, 3, 4))"

/-- Atomic expressions of the generated program: integer literals and
variable references. -/
inductive PAtom where
  | lit (n : ℤ) : PAtom
  | pvar (x : String) : PAtom

/-- Expressions of the generated program: atoms, binary `+` of atoms,
and function calls with atomic arguments. -/
inductive PExpr where
  | atom (a : PAtom) : PExpr
  | addE (x y : PAtom) : PExpr
  | callE (f : String) (args : List PAtom) : PExpr

/-- A `def`: parameter list, body of assignments `x = expr`, and the
returned expression. -/
structure PyFun where
  params : List String
  body : List (String × PExpr)
  ret : PExpr

/-- Variable environments of the evaluator. -/
def PEnv : Type := List (String × ℤ)

/-- Evaluate an atom in an environment. -/
def evalAtom (env : PEnv) : PAtom → Option ℤ
  | .lit n => some n
  | .pvar x => List.lookup x env

/-- Evaluate every atom of a list. -/
def evalAtoms (env : PEnv) : List PAtom → Option (List ℤ)
  | [] => some []
  | a :: rest =>
    match evalAtom env a, evalAtoms env rest with
    | some v, some vs => some (v :: vs)
    | _, _ => none

/-- Run the assignment statements of a body in order, extending the
environment; every right-hand side is evaluated with the given fuel. -/
def runBody (fns : List (String × PyFun))
    (evalFn : PEnv → PExpr → Option ℤ) : PEnv → List (String × PExpr) → Option PEnv
  | env, [] => some env
  | env, (x, ex) :: rest =>
    match evalFn env ex with
    | some v => runBody fns evalFn ((x, v) :: env) rest
    | none => none

/-- The expression evaluator, by structural recursion on fuel: a call
looks its function up, binds the parameters to the argument values, runs
the body's assignments and evaluates the returned expression. -/
def evalExpr (fns : List (String × PyFun)) : ℕ → PEnv → PExpr → Option ℤ
  | _, env, .atom a => evalAtom env a
  | _, env, .addE x y =>
    match evalAtom env x, evalAtom env y with
    | some u, some v => some (u + v)
    | _, _ => none
  | 0, _, .callE _ _ => none
  | fuel + 1, env, .callE f args =>
    match List.lookup f fns with
    | none => none
    | some fn =>
      match evalAtoms env args with
      | none => none
      | some argv =>
        if fn.params.length = argv.length then
          match runBody fns (evalExpr fns fuel) (fn.params.zip argv) fn.body with
          | some env1 => evalExpr fns fuel env1 fn.ret
          | none => none
        else none

/-- Pretty-print an atom (`toString` on `ℤ` prints Python's integer
literals). -/
def renderAtom : PAtom → String
  | .lit n => toString n
  | .pvar x => x

/-- Pretty-print an expression. -/
def renderExpr : PExpr → String
  | .atom a => renderAtom a
  | .addE x y => renderAtom x ++ " + " ++ renderAtom y
  | .callE f args => f ++ "(" ++ String.intercalate ", " (args.map renderAtom) ++ ")"

/-- Pretty-print an assignment line of a body. -/
def renderStmt (st : String × PExpr) : String :=
  "    " ++ st.1 ++ " = " ++ renderExpr st.2 ++ "\n"

/-- Pretty-print one `def` in the exact layout of the generated text. -/
def renderDef (name : String) (fn : PyFun) : String :=
  "\ndef " ++ name ++ "(" ++ String.intercalate ", " fn.params ++ "):\n"
    ++ String.join (fn.body.map renderStmt)
    ++ "    return " ++ renderExpr fn.ret ++ "\n"

/-- The syntax tree of the `add` definition in the generated text. -/
def addTree : PyFun :=
  ⟨["a", "b"], [], .addE (.pvar "a") (.pvar "b")⟩

/-- The syntax tree of the `fancy_func` definition in the generated text. -/
def fancyTree : PyFun :=
  ⟨["a", "b", "c", "d"],
    [("e", .callE "add" [.pvar "a", .pvar "b"]),
     ("f", .callE "add" [.pvar "c", .pvar "d"]),
     ("g", .callE "add" [.pvar "e", .pvar "f"])],
    .atom (.pvar "g")⟩

/-- The function table of the generated program. -/
def progFns : List (String × PyFun) :=
  [("add", addTree), ("fancy_func", fancyTree)]

/-- The expression printed by the generated program's last line. -/
def progMain : PExpr :=
  .callE "fancy_func" [.lit 1, .lit 2, .lit 3, .lit 4]

/-- Pretty-printing the whole program tree. -/
def renderProg : String :=
  renderDef "add" addTree ++ renderDef "fancy_func" fancyTree
    ++ "print(" ++ renderExpr progMain ++ ")"

/-- Executing the compiled program: the value its `print` line prints
(fuel 2 suffices, the generated program's call depth being 2). -/
def execProg : Option ℤ :=
  evalExpr progFns 2 [] progMain

/-! ## Order lemmas for the embedded comparators -/

theorem strLt_irrefl : ∀ l : List Char, strLt l l = false
  | [] => rfl
  | c :: cs => by simp [strLt, strLt_irrefl cs]

theorem strLt_asymm : ∀ a b : List Char, strLt a b = true → strLt b a = false := by
  intro a
  induction a with
  | nil =>
    intro b hb
    cases b with
    | nil => simp [strLt] at hb
    | cons d ds => rfl
  | cons c cs ih =>
    intro b hb
    cases b with
    | nil => simp [strLt] at hb
    | cons d ds =>
      simp only [strLt] at hb ⊢
      by_cases h1 : c < d
      · simp [h1, asymm h1]
      · by_cases h2 : d < c
        · simp [h1, h2] at hb
        · simp only [h1, h2, if_false] at hb ⊢
          exact ih ds hb

theorem strLt_trans :
    ∀ a b c : List Char, strLt a b = true → strLt b c = true → strLt a c = true := by
  intro a
  induction a with
  | nil =>
    intro b c hab hbc
    cases b <;> cases c <;> simp_all [strLt]
  | cons x xs ih =>
    intro b c hab hbc
    cases b with
    | nil => simp [strLt] at hab
    | cons y ys =>
      cases c with
      | nil => simp [strLt] at hbc
      | cons z zs =>
        simp only [strLt] at hab hbc ⊢
        by_cases h1 : x < y
        · by_cases h2 : y < z
          · simp [lt_trans h1 h2]
          · by_cases h3 : z < y
            · simp [h2, h3] at hbc
            · have hyz : y = z := le_antisymm (not_lt.mp h3) (not_lt.mp h2)
              subst hyz
              simp [h1]
        · by_cases h1' : y < x
          · simp [h1, h1'] at hab
          · have hxy : x = y := le_antisymm (not_lt.mp h1') (not_lt.mp h1)
            subst hxy
            simp only [h1, h1', if_false] at hab
            by_cases h2 : x < z
            · simp [h2]
            · by_cases h3 : z < x
              · simp [h2, h3] at hbc
              · simp only [h2, h3, if_false] at hbc ⊢
                exact ih ys zs hab hbc

theorem strLt_connex :
    ∀ a b : List Char, strLt a b = false → strLt b a = false → a = b := by
  intro a
  induction a with
  | nil =>
    intro b hab _
    cases b with
    | nil => rfl
    | cons d ds => simp [strLt] at hab
  | cons c cs ih =>
    intro b hab hba
    cases b with
    | nil => simp [strLt] at hba
    | cons d ds =>
      simp only [strLt] at hab hba
      by_cases h1 : c < d
      · simp [h1] at hab
      · by_cases h2 : d < c
        · simp [h1, h2] at hba
        · have hcd : c = d := le_antisymm (not_lt.mp h2) (not_lt.mp h1)
          subst hcd
          simp only [h1, lt_irrefl, if_false] at hab hba
          rw [ih ds hab hba]

instance : IsTotal (String × ℕ) byToken :=
  ⟨fun p q => by
    unfold byToken
    cases hpq : strLt q.1.data p.1.data with
    | false => exact Or.inl rfl
    | true => exact Or.inr (strLt_asymm _ _ hpq)⟩

instance : IsTrans (String × ℕ) byToken :=
  ⟨fun p q r hpq hqr => by
    unfold byToken at *
    by_contra hcon
    have hrp : strLt r.1.data p.1.data = true := by
      simpa using hcon
    cases hqr2 : strLt q.1.data r.1.data with
    | true =>
      have := strLt_trans _ _ _ hqr2 hrp
      simp [this] at hpq
    | false =>
      have heq : q.1.data = r.1.data := strLt_connex _ _ hqr2 hqr
      rw [← heq] at hrp
      simp [hrp] at hpq⟩

instance : IsTotal (String × ℕ) byFreqDesc :=
  ⟨fun p q => (le_total q.2 p.2).imp id id⟩

instance : IsTrans (String × ℕ) byFreqDesc :=
  ⟨fun _ _ _ h1 h2 => le_trans h2 h1⟩

/-! ## Lookup lemmas for the index map built by `toIdxAux` -/

theorem lookup_toIdxAux_not_mem (t : String) :
    ∀ (l : List String) (off : ℕ), t ∉ l → (toIdxAux off l).lookup t = none := by
  intro l
  induction l with
  | nil => intro off _; rfl
  | cons x ts ih =>
    intro off h
    have hxt : (t == x) = false :=
      beq_eq_false_iff_ne.mpr fun he => h (by rw [he]; exact List.mem_cons_self x ts)
    simp only [toIdxAux, List.lookup, hxt]
    exact ih _ fun ht => h (List.mem_cons_of_mem _ ht)

theorem lookup_toIdxAux_mem (t : String) :
    ∀ (l : List String) (off : ℕ), t ∈ l →
      ∃ j, (toIdxAux off l).lookup t = some j ∧ off ≤ j := by
  intro l
  induction l with
  | nil => intro off h; cases h
  | cons x ts ih =>
    intro off h
    by_cases hxt : t = x
    · refine ⟨off, ?_, le_refl off⟩
      simp [toIdxAux, List.lookup, hxt]
    · have hmem : t ∈ ts := by
        rcases List.mem_cons.mp h with h' | h'
        · exact absurd h' hxt
        · exact h'
      obtain ⟨j, hj, hoff⟩ := ih (off + 1) hmem
      refine ⟨j, ?_, by omega⟩
      simp only [toIdxAux, List.lookup, beq_eq_false_iff_ne.mpr hxt]
      exact hj

theorem lookup_toIdxAux_getD (t : String) :
    ∀ (l : List String) (off j : ℕ), (toIdxAux off l).lookup t = some j →
      off ≤ j ∧ j - off < l.length ∧ l.getD (j - off) default = t := by
  intro l
  induction l with
  | nil => intro off j h; simp [toIdxAux, List.lookup] at h
  | cons x ts ih =>
    intro off j h
    by_cases hxt : t = x
    · have hoj : off = j := by
        simpa [toIdxAux, List.lookup, hxt] using h
      subst hoj
      refine ⟨le_refl _, by simp, ?_⟩
      simpa [Nat.sub_self] using hxt.symm
    · have h' : (toIdxAux (off + 1) ts).lookup t = some j := by
        simpa only [toIdxAux, List.lookup, beq_eq_false_iff_ne.mpr hxt] using h
      obtain ⟨h1, h2, h3⟩ := ih (off + 1) j h'
      refine ⟨by omega, by simp only [List.length_cons]; omega, ?_⟩
      have hsub : j - off = (j - (off + 1)) + 1 := by omega
      rw [hsub]
      simpa using h3

theorem lookup_toIdxAux_get :
    ∀ (l : List String), l.Nodup → ∀ (off i : ℕ) (h : i < l.length),
      (toIdxAux off l).lookup (l.get ⟨i, h⟩) = some (off + i) := by
  intro l
  induction l with
  | nil => intro _ off i h; cases h
  | cons x ts ih =>
    intro hnd off i h
    rcases List.nodup_cons.mp hnd with ⟨hx, hts⟩
    cases i with
    | zero => simp [toIdxAux, List.lookup]
    | succ i =>
      have hget : (x :: ts).get ⟨i + 1, h⟩ = ts.get ⟨i, by simpa using h⟩ := rfl
      have hne : (ts.get ⟨i, by simpa using h⟩ == x) = false :=
        beq_eq_false_iff_ne.mpr fun he => hx (he ▸ ts.get_mem _ _)
      rw [hget]
      simp only [toIdxAux, List.lookup, hne]
      rw [ih hts (off + 1) i (by simpa using h)]
      congr 1
      omega

theorem lookup_toIdxAux_pair_lt (a b : String) :
    ∀ (l : List String) (off : ℕ), l.Nodup → [a, b] <+ l →
      ∃ ia ib, (toIdxAux off l).lookup a = some ia ∧
        (toIdxAux off l).lookup b = some ib ∧ ia < ib := by
  intro l
  induction l with
  | nil => intro off _ hsub; simp at hsub
  | cons x ts ih =>
    intro off hnd hsub
    rcases List.nodup_cons.mp hnd with ⟨hx, hts⟩
    cases hsub with
    | cons _ h' =>
      have ha : a ∈ ts := h'.subset (by simp)
      have hb : b ∈ ts := h'.subset (by simp)
      have hxa : (a == x) = false := beq_eq_false_iff_ne.mpr fun he => hx (he ▸ ha)
      have hxb : (b == x) = false := beq_eq_false_iff_ne.mpr fun he => hx (he ▸ hb)
      obtain ⟨ia, ib, h1, h2, h3⟩ := ih (off + 1) hts h'
      refine ⟨ia, ib, ?_, ?_, h3⟩
      · simp only [toIdxAux, List.lookup, hxa]
        exact h1
      · simp only [toIdxAux, List.lookup, hxb]
        exact h2
    | cons₂ _ h' =>
      have hb : b ∈ ts := h'.subset (by simp)
      have hab : (b == a) = false := beq_eq_false_iff_ne.mpr fun he => hx (he ▸ hb)
      obtain ⟨ib, hib, hoff⟩ := lookup_toIdxAux_mem b ts (off + 1) hb
      refine ⟨off, ib, by simp [toIdxAux, List.lookup], ?_, by omega⟩
      simp only [toIdxAux, List.lookup, hab]
      exact hib

/-- In a list that is pairwise `R`, an element `a` with `¬ R b a` stands
before `b`: `[a, b]` is a sublist. -/
theorem pair_sublist_of_pairwise {α : Type} {R : α → α → Prop} :
    ∀ {l : List α} {a b : α}, l.Pairwise R → a ∈ l → b ∈ l → a ≠ b → ¬ R b a →
      [a, b] <+ l := by
  intro l
  induction l with
  | nil => intro a b _ ha; cases ha
  | cons x t ih =>
    intro a b hp ha hb hne hnr
    rcases List.pairwise_cons.mp hp with ⟨hx, ht⟩
    rcases List.mem_cons.mp ha with rfl | hat
    · rcases List.mem_cons.mp hb with rfl | hbt
      · exact absurd rfl hne
      · exact (List.singleton_sublist.mpr hbt).cons₂ a
    · rcases List.mem_cons.mp hb with rfl | hbt
      · exact absurd (hx a hat) hnr
      · exact (ih ht hat hbt hne hnr).cons x

/-! ## Structural lemmas about the vocabulary construction -/

theorem vocabTokenFreqs_perm (tokens : List (List String)) :
    vocabTokenFreqs tokens ~ counterItems (count_corpus tokens) :=
  (List.perm_insertionSort byFreqDesc _).trans (List.perm_insertionSort byToken _)

theorem mem_vocabTokenFreqs {tokens : List (List String)} {t : String}
    (h : t ∈ count_corpus tokens) :
    (t, (count_corpus tokens).count t) ∈ vocabTokenFreqs tokens :=
  (vocabTokenFreqs_perm tokens).mem_iff.mpr
    (List.mem_map.mpr ⟨t, List.mem_dedup.mpr h, rfl⟩)

theorem vocabKeys_nodup (tokens : List (List String)) :
    ((vocabTokenFreqs tokens).map Prod.fst).Nodup := by
  have hperm := (vocabTokenFreqs_perm tokens).map Prod.fst
  have h2 : (counterItems (count_corpus tokens)).map Prod.fst
      = (count_corpus tokens).dedup := by
    simp only [counterItems, List.map_map]
    have hcomp : (Prod.fst ∘ fun t : String => (t, (count_corpus tokens).count t)) = id := rfl
    rw [hcomp, List.map_id]
  rw [h2] at hperm
  exact hperm.nodup_iff.mpr (List.nodup_dedup _)

theorem vocabTokenFreqs_sorted (tokens : List (List String)) :
    (vocabTokenFreqs tokens).Pairwise byFreqDesc :=
  List.sorted_insertionSort byFreqDesc _

theorem specialsOf_nodup (flag : Bool) : (specialsOf flag).Nodup := by
  cases flag <;> decide

theorem vocabUniq_nodup (tokens : List (List String)) (min_freq : ℕ) (flag : Bool) :
    (vocabUniq tokens min_freq flag).Nodup := by
  unfold vocabUniq
  refine List.Nodup.append (specialsOf_nodup flag) ?_ ?_
  · have hsub : ((vocabTokenFreqs tokens).filter fun p =>
        decide (min_freq ≤ p.2) && !((specialsOf flag).contains p.1)).map Prod.fst
          <+ (vocabTokenFreqs tokens).map Prod.fst :=
      (List.filter_sublist _).map Prod.fst
    exact (vocabKeys_nodup tokens).sublist hsub
  · intro t hts htk
    obtain ⟨p, hp, rfl⟩ := List.mem_map.mp htk
    obtain ⟨-, hpred⟩ := List.mem_filter.mp hp
    simp only [Bool.and_eq_true, Bool.not_eq_true', List.contains, List.elem_eq_mem,
      decide_eq_false_iff_not] at hpred
    exact hpred.2 hts

theorem pair_sublist_vocabUniq {tokens : List (List String)} {a b : String}
    {ca cb : ℕ} (ha : a ≠ "<unk>") (hb : b ≠ "<unk>")
    (hsub : [(a, ca), (b, cb)] <+ vocabTokenFreqs tokens) :
    [a, b] <+ vocabUniq tokens 0 false := by
  have hflt := hsub.filter fun p =>
    decide (0 ≤ p.2) && !((specialsOf false).contains p.1)
  rw [show ([(a, ca), (b, cb)].filter fun p =>
      decide (0 ≤ p.2) && !((specialsOf false).contains p.1)) = [(a, ca), (b, cb)] by
    simp [List.filter, specialsOf, ha, hb]] at hflt
  have hmap : [a, b] <+ ((vocabTokenFreqs tokens).filter fun p =>
      decide (0 ≤ p.2) && !((specialsOf false).contains p.1)).map Prod.fst := by
    simpa using hflt.map Prod.fst
  have huniq : vocabUniq tokens 0 false = "<unk>" ::
      ((vocabTokenFreqs tokens).filter fun p =>
        decide (0 ≤ p.2) && !((specialsOf false).contains p.1)).map Prod.fst := rfl
  rw [huniq]
  exact hmap.cons _

theorem vocab_getIdx_lt {tokens : List (List String)} {a b : String} {ca cb : ℕ}
    (ha : a ≠ "<unk>") (hb : b ≠ "<unk>")
    (hsub : [(a, ca), (b, cb)] <+ vocabTokenFreqs tokens) :
    (Vocab.ofTokens tokens 0 false).getIdx a < (Vocab.ofTokens tokens 0 false).getIdx b := by
  have hpair : [a, b] <+ vocabUniq tokens 0 false := pair_sublist_vocabUniq ha hb hsub
  obtain ⟨ia, ib, h1, h2, h3⟩ :=
    lookup_toIdxAux_pair_lt a b (vocabUniq tokens 0 false) 0
      (vocabUniq_nodup tokens 0 false) hpair
  simp only [Vocab.ofTokens, Vocab.getIdx, h1, h2, Option.getD_some]
  exact h3

theorem vocab_getIdx_unk (tokens : List (List String)) :
    (Vocab.ofTokens tokens 0 false).getIdx "<unk>" = 0 := by
  have huniq : vocabUniq tokens 0 false = "<unk>" ::
      ((vocabTokenFreqs tokens).filter fun p =>
        decide (0 ≤ p.2) && !((specialsOf false).contains p.1)).map Prod.fst := rfl
  simp [Vocab.ofTokens, Vocab.getIdx, huniq, toIdxAux, List.lookup]

/-! ## Structural lemmas about the CTR loading loop -/

theorem ctrLoad_foldl_aux (num_feat : ℕ) :
    ∀ (lines : List String) (n : ℕ) (acc : List (ℕ × CTRInstance)),
      lines.foldl (ctrStep num_feat) (n, acc)
        = (n + (lines.filter (ctrWellFormed num_feat)).length,
            acc ++ numberFrom n ((lines.filter (ctrWellFormed num_feat)).map
              fun l => mkCTRInstance num_feat (lineValues l))) := by
  intro lines
  induction lines with
  | nil => intro n acc; simp [numberFrom]
  | cons l ls ih =>
    intro n acc
    by_cases hwf : (lineValues l).length = num_feat + 1
    · have hstep : ctrStep num_feat (n, acc) l
          = (n + 1, acc ++ [(n, mkCTRInstance num_feat (lineValues l))]) := by
        simp [ctrStep, hwf]
      have hfl : (l :: ls).filter (ctrWellFormed num_feat)
          = l :: ls.filter (ctrWellFormed num_feat) := by
        simp [List.filter, ctrWellFormed, hwf]
      rw [List.foldl_cons, hstep, ih, hfl]
      simp [numberFrom, List.append_assoc]
      omega
    · have hstep : ctrStep num_feat (n, acc) l = (n, acc) := by
        simp [ctrStep, hwf]
      have hfl : (l :: ls).filter (ctrWellFormed num_feat)
          = ls.filter (ctrWellFormed num_feat) := by
        simp [List.filter, ctrWellFormed, beq_eq_false_iff_ne.mpr hwf]
      rw [List.foldl_cons, hstep, ih, hfl]

theorem lookup_numberFrom {α : Type} :
    ∀ (l : List α) (n i : ℕ),
      (numberFrom n l).lookup i = if n ≤ i then l[i - n]? else none := by
  intro l
  induction l with
  | nil =>
    intro n i
    simp [numberFrom]
  | cons x xs ih =>
    intro n i
    by_cases hin : i = n
    · subst hin
      simp [numberFrom, List.lookup]
    · have hbeq : (i == n) = false := beq_eq_false_iff_ne.mpr hin
      simp only [numberFrom, List.lookup, hbeq]
      rw [ih (n + 1) i]
      by_cases hle : n ≤ i
      · have hlt : n + 1 ≤ i := by omega
        have hsucc : i - n = (i - (n + 1)) + 1 := by omega
        simp [hle, hlt, hsucc]
      · have hlt : ¬ (n + 1 ≤ i) := by omega
        simp [hle, hlt]

/-! ## Softmax row lemmas -/

theorem softmaxRow_sum (e : ℚ → ℚ) (he : ∀ x, 0 < e x) {m : ℕ} (hm : 0 < m)
    (v : Fin m → ℚ) : ∑ j, softmaxRow e v j = 1 := by
  have hpos : 0 < ∑ j, e (v j) :=
    Finset.sum_pos (fun j _ => he _) ⟨⟨0, hm⟩, Finset.mem_univ _⟩
  simp only [softmaxRow]
  rw [← Finset.sum_div]
  exact div_self (ne_of_gt hpos)

theorem softmaxRow_nonneg (e : ℚ → ℚ) (he : ∀ x, 0 < e x) {m : ℕ}
    (v : Fin m → ℚ) (j : Fin m) : 0 ≤ softmaxRow e v j := by
  have hpos : 0 < ∑ j2, e (v j2) :=
    Finset.sum_pos (fun k _ => he _) ⟨j, Finset.mem_univ _⟩
  exact le_of_lt (div_pos (he _) hpos)

theorem masked_softmax_sum (e : ℚ → ℚ) (he : ∀ x, 0 < e x) {b n m : ℕ}
    (hm : 0 < m) (X : Fin b → Fin n → Fin m → ℚ) (vl : ValidLength b n)
    (i : Fin b) (r : Fin n) : ∑ j, masked_softmax e X vl i r j = 1 := by
  cases vl <;> exact softmaxRow_sum e he hm _

theorem masked_softmax_nonneg (e : ℚ → ℚ) (he : ∀ x, 0 < e x) {b n m : ℕ}
    (X : Fin b → Fin n → Fin m → ℚ) (vl : ValidLength b n)
    (i : Fin b) (r : Fin n) (j : Fin m) : 0 ≤ masked_softmax e X vl i r j := by
  cases vl <;> exact softmaxRow_nonneg e he _ j

/-! ## The claims -/

/-- C4: for every list of lines and every token-mode argument other than
'word' and 'char', `tokenize` prints the error string
'ERROR: unkown token type ' followed by the mode and returns no token
lists (None); for mode 'word' it returns one list of space-split words
per input line, and for mode 'char' one list of characters per input
line. -/
theorem tokenize_error_handling (lines : List String) (mode : String)
    (hw : mode ≠ "word") (hc : mode ≠ "char") :
    tokenize lines mode = (none, ["ERROR: unkown token type " ++ mode]) ∧
      (∃ ws, tokenize lines "word" = (some ws, []) ∧ ws.length = lines.length ∧
        ∀ i : ℕ, ws[i]? = (lines[i]?).map fun line =>
          (splitOnChar ' ' line.data).map String.mk) ∧
      (∃ cs, tokenize lines "char" = (some cs, []) ∧ cs.length = lines.length ∧
        ∀ i : ℕ, cs[i]? = (lines[i]?).map fun line =>
          line.data.map fun c => String.mk [c]) := by
  refine ⟨by simp [tokenize, hw, hc], ⟨_, rfl, by simp, ?_⟩, ⟨_, rfl, by simp, ?_⟩⟩
  · intro i
    simp [List.getElem?_map]
  · intro i
    simp [List.getElem?_map]

/-- C4 witness: the theorem applied to the lines `['ab c']` and the
unrecognized mode `'latin'`. -/
theorem tokenize_error_handling_witness :
    (("latin" : String) ≠ "word") ∧ (("latin" : String) ≠ "char") ∧
      (tokenize ["ab c"] "latin" = (none, ["ERROR: unkown token type " ++ "latin"]) ∧
        (∃ ws, tokenize ["ab c"] "word" = (some ws, []) ∧
          ws.length = (["ab c"] : List String).length ∧
          ∀ i : ℕ, ws[i]? = ((["ab c"] : List String)[i]?).map fun line =>
            (splitOnChar ' ' line.data).map String.mk) ∧
        (∃ cs, tokenize ["ab c"] "char" = (some cs, []) ∧
          cs.length = (["ab c"] : List String).length ∧
          ∀ i : ℕ, cs[i]? = ((["ab c"] : List String)[i]?).map fun line =>
            line.data.map fun c => String.mk [c])) :=
  ⟨by decide, by decide,
    tokenize_error_handling ["ab c"] "latin" (by decide) (by decide)⟩

/-- C7 counterexample: the manifest line `sphinx` is a non-comment,
non-empty package requirement entry that names no version at all, so
not every entry of the manifest pins an exact version. -/
theorem requirements_pinning_counterexample :
    ("sphinx" : String) ∈ requirementEntries ∧
      pinsExactVersion "sphinx" = false := by decide

/-- C7 (amended): the manifest's package requirement entries (its
non-comment, non-empty lines, twenty in all) each name a package, but
only three of them pin an exact version with `==`; the other seventeen
carry no version pin. -/
theorem requirements_pinned_subset :
    requirementEntries.length = 20 ∧
      requirementEntries.filter pinsExactVersion
        = ["sphinx-gallery==0.3.1", "awscli==1.16.35", "pillow==6.2.0"] := by decide

/-- C10: a line of the input file is stored as a record iff splitting
it on tab yields exactly `NUM_FEATS + 1` values (35 for the default
`num_feat = 34`), `__len__` returns exactly the number of such
well-formed lines, and the records are numbered consecutively from `0`
in file order. -/
theorem ctrDataset_wellformed_lines (num_feat : ℕ) (fileLines : List String) :
    CTRDataset.len num_feat fileLines
        = (fileLines.filter (ctrWellFormed num_feat)).length ∧
      (ctrLoad num_feat fileLines).2
        = numberFrom 0 ((fileLines.filter (ctrWellFormed num_feat)).map
            fun l => mkCTRInstance num_feat (lineValues l)) := by
  have h := ctrLoad_foldl_aux num_feat fileLines 0 []
  constructor
  · simpa [CTRDataset.len, ctrLoad] using congrArg Prod.fst h
  · simpa [ctrLoad] using congrArg Prod.snd h

/-- C5: the label component returned by `CTRDataset.__getitem__` for a
stored record is the click-through rate derived from the record's first
column: the stored line is one ad impression whose first column counts
its clicks, and the label equals `clicks / impressions` with one
impression. -/
theorem ctr_label_is_click_ratio (num_feat : ℕ) (fileLines : List String)
    (idx : ℕ) (y : ℚ) (h : CTRDataset.label num_feat fileLines idx = some y) :
    ∃ line, (fileLines.filter (ctrWellFormed num_feat))[idx]? = some line ∧
      y = clickThroughRate (parseDigits ((lineValues line).getD 0 default)) 1 := by
  have hsnd : (ctrLoad num_feat fileLines).2
      = numberFrom 0 ((fileLines.filter (ctrWellFormed num_feat)).map
          fun l => mkCTRInstance num_feat (lineValues l)) := by
    simpa [ctrLoad] using congrArg Prod.snd (ctrLoad_foldl_aux num_feat fileLines 0 [])
  unfold CTRDataset.label at h
  rw [hsnd, lookup_numberFrom] at h
  simp only [Nat.zero_le, if_true, Nat.sub_zero, List.getElem?_map] at h
  cases hline : (fileLines.filter (ctrWellFormed num_feat))[idx]? with
  | none => rw [hline] at h; simp at h
  | some line =>
    rw [hline] at h
    simp only [Option.map_some', Option.some.injEq] at h
    refine ⟨line, rfl, ?_⟩
    rw [← h]
    simp [mkCTRInstance, clickThroughRate]

/-- C5 witness: the theorem applied to a one-line file with
`num_feat = 1`, whose single record has click indicator 1. -/
theorem ctr_label_is_click_ratio_witness :
    CTRDataset.label 1 ["1\tx"] 0 = some 1 ∧
      (∃ line, ((["1\tx"] : List String).filter (ctrWellFormed 1))[0]? = some line ∧
        (1 : ℚ) = clickThroughRate (parseDigits ((lineValues line).getD 0 default)) 1) :=
  ⟨by decide, ctr_label_is_click_ratio 1 ["1\tx"] 0 1 (by decide)⟩

/-- C6: the imperative `fancy_func` returns `(a+b)+(c+d)` for all
numbers; the symbolic program text produced by `evoke_` is exactly the
pretty-printing of the program tree, whose compiled execution prints
the same value as the imperative evaluation of `fancy_func(1, 2, 3, 4)`;
both yield 10. -/
theorem hybridize_symbolic_equiv :
    (∀ a b c d : ℤ, fancy_func a b c d = (a + b) + (c + d)) ∧
      renderProg = evoke_ ∧
      execProg = some (fancy_func 1 2 3 4) ∧
      fancy_func 1 2 3 4 = 10 :=
  ⟨fun _ _ _ _ => rfl, by decide, by decide, by decide⟩

/-- C1 counterexample: in the corpus `[['a', 'a', '<unk>']]` the token
`'a'` occurs twice and the token `'<unk>'` once, both are corpus tokens
and distinct, yet `'a'` receives index 1 and `'<unk>'` index 0 — the
strictly more frequent token does not get the strictly smaller index,
because `'<unk>'` is unconditionally placed at index 0. -/
theorem vocab_desc_freq_counterexample :
    ("a" : String) ≠ "<unk>" ∧
      ("a" : String) ∈ count_corpus [["a", "a", "<unk>"]] ∧
      ("<unk>" : String) ∈ count_corpus [["a", "a", "<unk>"]] ∧
      (count_corpus [["a", "a", "<unk>"]]).count "a" = 2 ∧
      (count_corpus [["a", "a", "<unk>"]]).count "<unk>" = 1 ∧
      (Vocab.ofTokens [["a", "a", "<unk>"]] 0 false).getIdx "a" = 1 ∧
      (Vocab.ofTokens [["a", "a", "<unk>"]] 0 false).getIdx "<unk>" = 0 ∧
      ¬ ((Vocab.ofTokens [["a", "a", "<unk>"]] 0 false).getIdx "a"
          < (Vocab.ofTokens [["a", "a", "<unk>"]] 0 false).getIdx "<unk>") := by
  decide

/-- C1 (amended): with `min_freq = 0` and `use_special_tokens = False`,
index 0 is `'<unk>'`, and for any two distinct corpus tokens other than
the literal token `'<unk>'`, strictly greater corpus count means
strictly smaller assigned index. -/
theorem vocab_desc_freq (tokens : List (List String)) (a b : String)
    (ha : a ∈ count_corpus tokens) (hb : b ∈ count_corpus tokens)
    (hne : a ≠ b) (hau : a ≠ "<unk>") (hbu : b ≠ "<unk>")
    (hcnt : (count_corpus tokens).count b < (count_corpus tokens).count a) :
    (Vocab.ofTokens tokens 0 false).getIdx "<unk>" = 0 ∧
      (Vocab.ofTokens tokens 0 false).getIdx a
        < (Vocab.ofTokens tokens 0 false).getIdx b := by
  refine ⟨vocab_getIdx_unk tokens, ?_⟩
  have hma : (a, (count_corpus tokens).count a) ∈ vocabTokenFreqs tokens :=
    mem_vocabTokenFreqs ha
  have hmb : (b, (count_corpus tokens).count b) ∈ vocabTokenFreqs tokens :=
    mem_vocabTokenFreqs hb
  have hpairne : (a, (count_corpus tokens).count a)
      ≠ (b, (count_corpus tokens).count b) :=
    fun hEq => hne (congrArg Prod.fst hEq)
  have hnr : ¬ byFreqDesc (b, (count_corpus tokens).count b)
      (a, (count_corpus tokens).count a) := not_le.mpr hcnt
  have hsub := pair_sublist_of_pairwise (vocabTokenFreqs_sorted tokens)
    hma hmb hpairne hnr
  exact vocab_getIdx_lt hau hbu hsub

/-- C1 witness: the theorem applied to the corpus `[['x', 'x', 'y']]`,
where `'x'` occurs twice and `'y'` once. -/
theorem vocab_desc_freq_witness :
    ("x" : String) ∈ count_corpus [["x", "x", "y"]] ∧
      ("y" : String) ∈ count_corpus [["x", "x", "y"]] ∧
      ("x" : String) ≠ "y" ∧ ("x" : String) ≠ "<unk>" ∧ ("y" : String) ≠ "<unk>" ∧
      (count_corpus [["x", "x", "y"]]).count "y"
        < (count_corpus [["x", "x", "y"]]).count "x" ∧
      ((Vocab.ofTokens [["x", "x", "y"]] 0 false).getIdx "<unk>" = 0 ∧
        (Vocab.ofTokens [["x", "x", "y"]] 0 false).getIdx "x"
          < (Vocab.ofTokens [["x", "x", "y"]] 0 false).getIdx "y") :=
  ⟨by decide, by decide, by decide, by decide, by decide, by decide,
    vocab_desc_freq [["x", "x", "y"]] "x" "y" (by decide) (by decide)
      (by decide) (by decide) (by decide) (by decide)⟩

/-- C9 counterexample: in the corpus `[['!', '<unk>']]` the tokens `'!'`
and `'<unk>'` are distinct and have equal frequency, `'!'` is
lexicographically smaller in code-point order, yet `'!'` receives
index 1 and `'<unk>'` index 0: the lexicographically smaller token does
not get the strictly smaller index when the corpus contains the literal
token `'<unk>'`. -/
theorem vocab_tiebreak_counterexample :
    ("!" : String) ≠ "<unk>" ∧
      ("!" : String) ∈ count_corpus [["!", "<unk>"]] ∧
      ("<unk>" : String) ∈ count_corpus [["!", "<unk>"]] ∧
      (count_corpus [["!", "<unk>"]]).count "!"
        = (count_corpus [["!", "<unk>"]]).count "<unk>" ∧
      strLt "!".data "<unk>".data = true ∧
      ¬ ((Vocab.ofTokens [["!", "<unk>"]] 0 false).getIdx "!"
          < (Vocab.ofTokens [["!", "<unk>"]] 0 false).getIdx "<unk>") := by
  decide

/-- C9 (amended): with `min_freq = 0` and `use_special_tokens = False`,
among distinct corpus tokens of equal frequency other than the literal
token `'<unk>'`, the lexicographically smaller token (in Python's
code-point order) receives the strictly smaller index, because the
constructor first sorts by token and then stably re-sorts by descending
count; and the construction is deterministic: equal corpora give equal
`token_to_idx` maps. -/
theorem vocab_tiebreak (tokens : List (List String)) (a b : String)
    (ha : a ∈ count_corpus tokens) (hb : b ∈ count_corpus tokens)
    (hne : a ≠ b) (hau : a ≠ "<unk>") (hbu : b ≠ "<unk>")
    (hcnt : (count_corpus tokens).count a = (count_corpus tokens).count b)
    (hlex : strLt a.data b.data = true) :
    (Vocab.ofTokens tokens 0 false).getIdx a
        < (Vocab.ofTokens tokens 0 false).getIdx b ∧
      ∀ tokens2, tokens2 = tokens →
        (Vocab.ofTokens tokens2 0 false).token_to_idx
          = (Vocab.ofTokens tokens 0 false).token_to_idx := by
  refine ⟨?_, fun tokens2 h2 => by rw [h2]⟩
  have hma : (a, (count_corpus tokens).count a)
      ∈ (counterItems (count_corpus tokens)).insertionSort byToken :=
    (List.perm_insertionSort byToken _).mem_iff.mpr
      (List.mem_map.mpr ⟨a, List.mem_dedup.mpr ha, rfl⟩)
  have hmb : (b, (count_corpus tokens).count b)
      ∈ (counterItems (count_corpus tokens)).insertionSort byToken :=
    (List.perm_insertionSort byToken _).mem_iff.mpr
      (List.mem_map.mpr ⟨b, List.mem_dedup.mpr hb, rfl⟩)
  have hsorted1 : ((counterItems (count_corpus tokens)).insertionSort byToken).Pairwise byToken :=
    List.sorted_insertionSort byToken _
  have hpairne : (a, (count_corpus tokens).count a)
      ≠ (b, (count_corpus tokens).count b) :=
    fun hEq => hne (congrArg Prod.fst hEq)
  have hnr : ¬ byToken (b, (count_corpus tokens).count b)
      (a, (count_corpus tokens).count a) := by
    unfold byToken
    simp [hlex]
  have hsub1 := pair_sublist_of_pairwise hsorted1 hma hmb hpairne hnr
  have hab : byFreqDesc (a, (count_corpus tokens).count a)
      (b, (count_corpus tokens).count b) := le_of_eq hcnt.symm
  have hsub : [(a, (count_corpus tokens).count a),
      (b, (count_corpus tokens).count b)] <+ vocabTokenFreqs tokens :=
    List.pair_sublist_insertionSort hab hsub1
  exact vocab_getIdx_lt hau hbu hsub

/-- C9 witness: the theorem applied to the corpus `[['p', 'q']]`, whose
two tokens have equal frequency and `'p' < 'q'`. -/
theorem vocab_tiebreak_witness :
    ("p" : String) ∈ count_corpus [["p", "q"]] ∧
      ("q" : String) ∈ count_corpus [["p", "q"]] ∧
      ("p" : String) ≠ "q" ∧ ("p" : String) ≠ "<unk>" ∧ ("q" : String) ≠ "<unk>" ∧
      (count_corpus [["p", "q"]]).count "p" = (count_corpus [["p", "q"]]).count "q" ∧
      strLt "p".data "q".data = true ∧
      ((Vocab.ofTokens [["p", "q"]] 0 false).getIdx "p"
          < (Vocab.ofTokens [["p", "q"]] 0 false).getIdx "q" ∧
        ∀ tokens2, tokens2 = [["p", "q"]] →
          (Vocab.ofTokens tokens2 0 false).token_to_idx
            = (Vocab.ofTokens [["p", "q"]] 0 false).token_to_idx) :=
  ⟨by decide, by decide, by decide, by decide, by decide, by decide, by decide,
    vocab_tiebreak [["p", "q"]] "p" "q" (by decide) (by decide) (by decide)
      (by decide) (by decide) (by decide) (by decide)⟩

/-- C8: every constructed `Vocab` keeps `idx_to_token` and
`token_to_idx` mutually inverse at its public interface: looking the
`i`-th token up yields `i`, `to_tokens` of `vocab[t]` returns `t` for
every token of the vocabulary, and `vocab[t]` is the unknown-token
index `self.unk` for every token outside it. -/
theorem vocab_inverse_maps (tokens : List (List String)) (min_freq : ℕ)
    (use_special_tokens : Bool) :
    (∀ i (h : i < (Vocab.ofTokens tokens min_freq use_special_tokens).idx_to_token.length),
        (Vocab.ofTokens tokens min_freq use_special_tokens).token_to_idx.lookup
          ((Vocab.ofTokens tokens min_freq use_special_tokens).idx_to_token.get ⟨i, h⟩)
          = some i) ∧
      (∀ t, t ∈ (Vocab.ofTokens tokens min_freq use_special_tokens).idx_to_token →
        (Vocab.ofTokens tokens min_freq use_special_tokens).to_tokens
          ((Vocab.ofTokens tokens min_freq use_special_tokens).getIdx t) = t) ∧
      (∀ t, t ∉ (Vocab.ofTokens tokens min_freq use_special_tokens).idx_to_token →
        (Vocab.ofTokens tokens min_freq use_special_tokens).getIdx t
          = (Vocab.ofTokens tokens min_freq use_special_tokens).unk) := by
  refine ⟨?_, ?_, ?_⟩
  · intro i h
    have hl := lookup_toIdxAux_get (vocabUniq tokens min_freq use_special_tokens)
      (vocabUniq_nodup tokens min_freq use_special_tokens) 0 i h
    simpa using hl
  · intro t ht
    obtain ⟨j, hj, -⟩ :=
      lookup_toIdxAux_mem t (vocabUniq tokens min_freq use_special_tokens) 0 ht
    obtain ⟨-, -, hget⟩ := lookup_toIdxAux_getD t _ 0 j hj
    show Vocab.to_tokens _ _ = t
    simp only [Vocab.ofTokens, Vocab.getIdx, Vocab.to_tokens, hj, Option.getD_some]
    simpa using hget
  · intro t ht
    simp [Vocab.ofTokens, Vocab.getIdx,
      lookup_toIdxAux_not_mem t (vocabUniq tokens min_freq use_special_tokens) 0 ht]

/-- C8 witness: the theorem applied to the corpus `[['w']]` (vocabulary
`['<unk>', 'w']`), checked at index 1, at the stored token `'w'` and at
the absent token `'zz'`. -/
theorem vocab_inverse_maps_witness :
    (("w" : String) ∈ (Vocab.ofTokens [["w"]] 0 false).idx_to_token) ∧
      (("zz" : String) ∉ (Vocab.ofTokens [["w"]] 0 false).idx_to_token) ∧
      ((Vocab.ofTokens [["w"]] 0 false).token_to_idx.lookup
          ((Vocab.ofTokens [["w"]] 0 false).idx_to_token.get ⟨1, by decide⟩) = some 1) ∧
      ((Vocab.ofTokens [["w"]] 0 false).to_tokens
          ((Vocab.ofTokens [["w"]] 0 false).getIdx "w") = "w") ∧
      ((Vocab.ofTokens [["w"]] 0 false).getIdx "zz"
          = (Vocab.ofTokens [["w"]] 0 false).unk) :=
  ⟨by decide, by decide,
    (vocab_inverse_maps [["w"]] 0 false).1 1 (by decide),
    (vocab_inverse_maps [["w"]] 0 false).2.1 "w" (by decide),
    (vocab_inverse_maps [["w"]] 0 false).2.2 "zz" (by decide)⟩

/-- C2: with dropout inactive, both attention layers return
`batch_dot(w, value)` where `w = masked_softmax(scores, valid_length)`
is a matrix of attention weights that are non-negative and sum to one
along the last axis, so each output row is a convex combination of the
value rows.  The framework's `exp` is abstracted as any positive
function `e`, `tanh` as `th`, and `math.sqrt(d)` as `sqrtd`. -/
theorem attention_weighted_average (e th : ℚ → ℚ) (he : ∀ x, 0 < e x)
    {b n m d vd dq dk hu : ℕ} (hm : 0 < m) (sqrtd : ℚ)
    (dropout : (Fin b → Fin n → Fin m → ℚ) → Fin b → Fin n → Fin m → ℚ)
    (hdrop : dropout = id)
    (query : Fin b → Fin n → Fin d → ℚ) (key : Fin b → Fin m → Fin d → ℚ)
    (value : Fin b → Fin m → Fin vd → ℚ)
    (query2 : Fin b → Fin n → Fin dq → ℚ) (key2 : Fin b → Fin m → Fin dk → ℚ)
    (Wk : Fin hu → Fin dq → ℚ) (Wq : Fin hu → Fin dk → ℚ) (vW : Fin hu → ℚ)
    (valid_length : ValidLength b n) :
    DotProductAttention.forward e sqrtd dropout query key value valid_length
        = batch_dot (masked_softmax e (dotScores sqrtd query key) valid_length) value ∧
      MLPAttention.forward e th Wk Wq vW dropout query2 key2 value valid_length
        = batch_dot (masked_softmax e (mlpScores th Wk Wq vW query2 key2) valid_length) value ∧
      (∀ i r, ∑ j, masked_softmax e (dotScores sqrtd query key) valid_length i r j = 1) ∧
      (∀ i r j, 0 ≤ masked_softmax e (dotScores sqrtd query key) valid_length i r j) ∧
      (∀ i r, ∑ j, masked_softmax e (mlpScores th Wk Wq vW query2 key2) valid_length i r j = 1) ∧
      (∀ i r j, 0 ≤ masked_softmax e (mlpScores th Wk Wq vW query2 key2) valid_length i r j) := by
  subst hdrop
  exact ⟨rfl, rfl,
    fun i r => masked_softmax_sum e he hm _ valid_length i r,
    fun i r j => masked_softmax_nonneg e he _ valid_length i r j,
    fun i r => masked_softmax_sum e he hm _ valid_length i r,
    fun i r j => masked_softmax_nonneg e he _ valid_length i r j⟩

/-- The constant-one abstraction of `exp` used by the attention
witness (any positive function satisfies the theorem's hypothesis). -/
def expOne : ℚ → ℚ := fun _ => 1

/-- A `(1, 1, 1)` all-zero tensor, for the attention witness. -/
def zeroT : Fin 1 → Fin 1 → Fin 1 → ℚ := fun _ _ _ => 0

/-- A `1×1` zero weight matrix, for the attention witness. -/
def zeroW : Fin 1 → Fin 1 → ℚ := fun _ _ => 0

/-- A length-1 zero weight vector, for the attention witness. -/
def zeroV : Fin 1 → ℚ := fun _ => 0

/-- C2 witness: the theorem applied at batch, row, column and feature
dimensions all 1, with `e = th` the constant-one function, unit
`sqrt d`, the identity dropout and zero tensors. -/
theorem attention_weighted_average_witness :
    (∀ x : ℚ, 0 < expOne x) ∧ ((0 : ℕ) < 1) ∧ (id = (id : (Fin 1 → Fin 1 → Fin 1 → ℚ) → Fin 1 → Fin 1 → Fin 1 → ℚ)) ∧
      (DotProductAttention.forward expOne 1 id zeroT zeroT zeroT ValidLength.vlNone
          = batch_dot (masked_softmax expOne (dotScores 1 zeroT zeroT) ValidLength.vlNone) zeroT ∧
        MLPAttention.forward expOne expOne zeroW zeroW zeroV id zeroT zeroT zeroT ValidLength.vlNone
          = batch_dot (masked_softmax expOne (mlpScores expOne zeroW zeroW zeroV zeroT zeroT) ValidLength.vlNone) zeroT ∧
        (∀ i r, ∑ j, masked_softmax expOne (dotScores 1 zeroT zeroT) ValidLength.vlNone i r j = 1) ∧
        (∀ i r j, 0 ≤ masked_softmax expOne (dotScores 1 zeroT zeroT) ValidLength.vlNone i r j) ∧
        (∀ i r, ∑ j, masked_softmax expOne (mlpScores expOne zeroW zeroW zeroV zeroT zeroT) ValidLength.vlNone i r j = 1) ∧
        (∀ i r j, 0 ≤ masked_softmax expOne (mlpScores expOne zeroW zeroW zeroV zeroT zeroT) ValidLength.vlNone i r j)) :=
  ⟨fun _ => one_pos, Nat.one_pos, rfl,
    attention_weighted_average expOne expOne (fun _ => one_pos) Nat.one_pos 1 id rfl
      zeroT zeroT zeroT zeroT zeroT zeroW zeroW zeroV ValidLength.vlNone⟩

/-- C3: transposed convolution is multiplication by the transpose of
the convolution's matrix: for every `2×2` kernel `K`, `trans_conv` on a
`2×2` input equals `kernel2matrix(K)` transposed times the flattened
input, reshaped `3×3`; and the ordinary convolution of a `3×3` input
with `K` equals `kernel2matrix(K)` times the flattened input, reshaped
`2×2`. -/
theorem trans_conv_is_matrix_transpose (K X2 : Fin 2 → Fin 2 → ℚ)
    (X3 : Fin 3 → Fin 3 → ℚ) :
    trans_conv X2 K
        = reshape9to3 (matVec (transposeM (kernel2matrix K)) (reshape2to4 X2)) ∧
      corr2d X3 K = reshape4to2 (matVec (kernel2matrix K) (reshape3to9 X3)) := by
  constructor
  · funext p q
    fin_cases p <;> fin_cases q <;>
      · simp [trans_conv, reshape9to3, matVec, transposeM, kernel2matrix, kvec,
          rowOffset, reshape2to4, Fin.sum_univ_succ]
        ring
  · funext p q
    fin_cases p <;> fin_cases q <;>
      · simp [corr2d, reshape4to2, matVec, kernel2matrix, kvec,
          rowOffset, reshape3to9, Fin.sum_univ_succ]
        ring
